import Mathlib

/-!
Verification of the baro-cli publish pipeline: the publish gate
(`src/publish_gate.rs`), the packaging engine (`src/packaging.rs`) and the
publish orchestrator (`src/main.rs`), shallowly embedded in Lean.

Filesystem state is modelled explicitly: the gate only inspects the direct
children of the working directory, so it takes the list of child names; the
packaging walk recurses, so it takes a tree of nodes.  Network endpoints and
the external compression/serialization crates (`flate2`, `tar`) are modelled
as parameters, since their code is not part of this repository; the SHA-256
digest (the `sha2` crate) is implemented concretely from FIPS 180-4 because
the spec's claims constrain its output shape.
-/

namespace Baro

/-! ## Data model of `publish_gate.rs` -/

/-- Mirror of `CheckFailure` in `publish_gate.rs`. -/
structure CheckFailure where
  message : String
  ai_fix_prompt : String
deriving DecidableEq, Repr

/-- Mirror of `CheckWarning` in `publish_gate.rs`. -/
structure CheckWarning where
  message : String
deriving DecidableEq, Repr

/-- Mirror of `GateResult` in `publish_gate.rs`. -/
structure GateResult where
  passed : Bool
  failures : List CheckFailure
  warnings : List CheckWarning
deriving DecidableEq, Repr

/-- Mirror of `Category` in `types.rs` (fields used by the gate). -/
structure Category where
  id : Int
  slug : String
  name : String
  description : Option String
deriving DecidableEq, Repr

/-- The `BUILD_FILES` constant of `publish_gate.rs`. -/
def BUILD_FILES : List String :=
  ["Cargo.toml", "package.json", "Makefile", "CMakeLists.txt",
   "pyproject.toml", "setup.py", "go.mod", "build.gradle", "pom.xml"]

/-- The `SECRET_FILES` constant of `publish_gate.rs`. -/
def SECRET_FILES : List String :=
  ["credentials.json", "service-account.json", "id_rsa", "id_ed25519"]

/-- The `SECRET_EXTENSIONS` constant of `publish_gate.rs`. -/
def SECRET_EXTENSIONS : List String := [".pem", ".key", ".p12", ".pfx"]

/-- The character loop of `regex_lite` in `publish_gate.rs`: `expectDigit`
is the mutable `expect_digit` flag, and the final result is
`!expect_digit` (must not end with a separator). -/
def regexLiteLoop : List Char → Bool → Bool
  | [], expectDigit => !expectDigit
  | c :: rest, expectDigit =>
    if expectDigit then
      if !c.isDigit then false
      else regexLiteLoop rest false
    else if c == '.' then regexLiteLoop rest true
    else if !c.isDigit then false
    else regexLiteLoop rest false

/-- The matcher returned by `regex_lite` in `publish_gate.rs` (the `pattern`
argument is ignored by the source; only `^\d+(\.\d+)*$` is supported).
`Char.isDigit` coincides with Rust's `char::is_ascii_digit`. -/
def regex_lite (s : String) : Bool :=
  if s.data.isEmpty then false else regexLiteLoop s.data true

/-- The dot-prefixed rendering of a list of trailing groups:
`.g1.g2...gn` as a character list. -/
def dotGroups (gs : List (List Char)) : List Char :=
  (gs.map (fun g => '.' :: g)).flatten

/-- A nonempty run of ASCII digits. -/
def IsDigitGroup (g : List Char) : Prop := g ≠ [] ∧ ∀ c ∈ g, c.isDigit = true

/-- The spec's version pattern `^\d+(\.\d+)*$`, stated from its words: the
string is one or more nonempty ASCII-digit groups separated by single
dots (so it is non-empty and has no trailing dot). -/
def matchesVersionPattern (s : String) : Prop :=
  ∃ gs : List (List Char), gs ≠ [] ∧ (∀ g ∈ gs, IsDigitGroup g)
    ∧ s.data = List.intercalate ['.'] gs

/-- The number of bytes of a character's UTF-8 encoding. -/
def charUtf8Size (c : Char) : Nat :=
  if c.val ≤ 0x7F then 1 else if c.val ≤ 0x7FF then 2 else if c.val ≤ 0xFFFF then 3 else 4

/-- Rust `str::len`: the UTF-8 byte length of a string (not the character
count). -/
def utf8Len (s : String) : Nat := (s.data.map charUtf8Size).sum

/-- Whether a directory listing contains an entry with the given name; models
`dir.join(name).exists()` and the `read_dir` membership tests, with the
directory given by the list of its direct children's names. -/
def dirContains (entries : List String) (name : String) : Bool :=
  entries.contains name

/-- The build-file check of `run` in `publish_gate.rs`. -/
def buildFailures (entries : List String) : List CheckFailure :=
  if !(BUILD_FILES.any (dirContains entries)) then
    [{ message := "No build file found (Cargo.toml, package.json, Makefile, etc.)",
       ai_fix_prompt := "Create a build file (e.g., Cargo.toml for Rust, package.json for Node.js) that describes how to build this project." }]
  else []

/-- The README check of `run` in `publish_gate.rs`. -/
def readmeFailures (entries : List String) : List CheckFailure :=
  let has_readme := dirContains entries "README.md" || dirContains entries "readme.md"
    || dirContains entries "README"
  if !has_readme then
    [{ message := "README.md not found",
       ai_fix_prompt := "Create a README.md with: project description (what it does, who it's for), setup instructions, and usage examples. Minimum 200 words." }]
  else []

/-- Rust's `str::starts_with`, as a character-list prefix test (equivalent
to the byte-prefix test on valid UTF-8). -/
def strStarts (s p : String) : Bool := p.data.isPrefixOf s.data

/-- Rust's `str::ends_with`, as a character-list suffix test. -/
def strEnds (s p : String) : Bool := p.data.isSuffixOf s.data

/-- The per-entry secret test inside `check_secrets` in `publish_gate.rs`
(the three independent `is_secret` conditions, disjoined). -/
def isSecretName (name : String) : Bool :=
  (strStarts name ".env" && name != ".env.example")
    || SECRET_FILES.contains name
    || SECRET_EXTENSIONS.any (fun ext => strEnds name ext)

/-- The `check_secrets` function of `publish_gate.rs`: scans the direct
children, collects every flagged name, and emits one combined failure. -/
def secretFailures (entries : List String) : List CheckFailure :=
  let found_secrets := entries.filter isSecretName
  if !found_secrets.isEmpty then
    [{ message := "Potential secrets found: " ++ String.intercalate ", " found_secrets,
       ai_fix_prompt := "Remove or .gitignore these files before publishing: "
         ++ String.intercalate ", " found_secrets ++ ". Use environment variables instead." }]
  else []

/-- The version check of `run` in `publish_gate.rs`. -/
def versionFailures (version : String) : List CheckFailure :=
  if version.data.isEmpty || !(regex_lite version) then
    [{ message := "Invalid version: '" ++ version ++ "'",
       ai_fix_prompt := "Provide a valid version with --version (e.g., --version 1.0.0). Must match pattern: digits separated by dots." }]
  else []

/-- The description-length check of `run` in `publish_gate.rs`: only checked
when a description is supplied; the threshold and the reported count use
Rust `str::len`, i.e. the UTF-8 byte length. -/
def descriptionFailures : Option String → List CheckFailure
  | some desc =>
    if utf8Len desc < 50 then
      [{ message := "Description too short (" ++ toString (utf8Len desc) ++ " chars, need 50+)",
         ai_fix_prompt := "Add a description of at least 50 characters. Use --description or update your Cargo.toml/package.json description field." }]
    else []
  | none => []

/-- A 30-character description (thirty copies of a two-byte character)
whose UTF-8 encoding is 60 bytes long. -/
def multibyteDesc : String := String.mk (List.replicate 30 'é')

/-- The category check of `run` in `publish_gate.rs`. -/
def categoryFailures (category_slug : String) (categories : List Category) : List CheckFailure :=
  if !(categories.any (fun c => c.slug == category_slug)) then
    [{ message := "Invalid category: '" ++ category_slug ++ "'",
       ai_fix_prompt := "Use --category with a valid slug. Available: "
         ++ String.intercalate ", " (categories.map (fun c => c.slug)) }]
  else []

/-- The advisory AI-context-file check of `run` in `publish_gate.rs`. -/
def aiWarnings (entries : List String) : List CheckWarning :=
  let has_ai := ["CLAUDE.md", ".cursorrules", "AGENTS.md"].any (dirContains entries)
  if !has_ai then
    [{ message := "No AI context files found (CLAUDE.md, .cursorrules, AGENTS.md). These help AI tools understand your project." }]
  else []

/-- The advisory LICENSE check of `run` in `publish_gate.rs`. -/
def licenseWarnings (entries : List String) : List CheckWarning :=
  let has_license := dirContains entries "LICENSE" || dirContains entries "LICENSE.md"
    || dirContains entries "LICENSE.txt"
  if !has_license then
    [{ message := "No LICENSE file found. Consider adding one (MIT recommended for remix-friendly products)." }]
  else []

/-- The `run` function of `publish_gate.rs`.  The source pushes each check's
failures into one mutable `Vec` in program order; the embedding concatenates
the per-check contributions in the same order.  `entries` is the list of the
directory's direct children's names. -/
def run (entries : List String) (version : String) (description : Option String)
    (category_slug : String) (categories : List Category) : GateResult :=
  let failures := buildFailures entries ++ readmeFailures entries ++ secretFailures entries
    ++ versionFailures version ++ descriptionFailures description
    ++ categoryFailures category_slug categories
  let warnings := aiWarnings entries ++ licenseWarnings entries
  { passed := failures.isEmpty, failures := failures, warnings := warnings }

/-! ## Data model of `packaging.rs`

The directory tree is modelled as nested nodes; a relative path is the list
of its components, root-first.  External crates are parameters: `tarSer`
stands for the `tar::Builder` serialization, `gzip` for `flate2`
compression, `unpack` for the decode direction, and `ign` for whatever
extra entries the `.gitignore`-honouring walker drops. -/

/-- The `EXCLUDED_DIRS` constant of `packaging.rs`. -/
def EXCLUDED_DIRS : List String := [".git", ".baro", "target", "node_modules", ".next"]

/-- A node of the directory tree being archived. -/
inductive FsNode where
  | file (name : String)
  | dir (name : String) (children : List FsNode)
deriving Repr

/-- The name of a node. -/
def nodeName : FsNode → String
  | .file n => n
  | .dir n _ => n

/-- The `filter_entry` predicate of `create_archive` in `packaging.rs`:
directories are kept unless named in `EXCLUDED_DIRS`; other entries are
kept unless their name starts with `.env`. -/
def filterEntry : FsNode → Bool
  | .dir name _ => !EXCLUDED_DIRS.contains name
  | .file name => !strStarts name ".env"

mutual
/-- The recursive walk of `create_archive` below the root, for one node:
an entry failing `filter_entry` (or dropped by the ignore rules `ign`) is
skipped together with its whole subtree; a surviving file yields its
relative path, a surviving directory yields its path and then its
children's entries.  The Boolean marks directory entries. -/
def walkNode (ign : List String → Bool) (pre : List String) : FsNode → List (List String × Bool)
  | .file name =>
    if filterEntry (.file name) && !ign (pre ++ [name]) then [(pre ++ [name], false)]
    else []
  | .dir name children =>
    if filterEntry (.dir name children) && !ign (pre ++ [name]) then
      (pre ++ [name], true) :: walkForest ign (pre ++ [name]) children
    else []

/-- The walk over a list of sibling nodes, in order. -/
def walkForest (ign : List String → Bool) (pre : List String) : List FsNode → List (List String × Bool)
  | [] => []
  | n :: rest => walkNode ign pre n ++ walkForest ign pre rest
end

mutual
/-- Well-formedness of a node: a directory's children carry distinct
names (as on a real filesystem), recursively. -/
def WFNode : FsNode → Prop
  | .file _ => True
  | .dir _ children => (children.map nodeName).Nodup ∧ WFChildren children

/-- Well-formedness of each node in a list. -/
def WFChildren : List FsNode → Prop
  | [] => True
  | n :: rest => WFNode n ∧ WFChildren rest
end

/-- Well-formedness of a directory's contents: sibling names are distinct
at every level. -/
def WFForest (forest : List FsNode) : Prop :=
  (forest.map nodeName).Nodup ∧ WFChildren forest

/-- The node reached from a list of siblings by following a nonempty
relative path: the final component names the node, earlier components
name directories along the way. -/
def IsNodeAt : List FsNode → List String → FsNode → Prop
  | _, [], _ => False
  | forest, q :: rest, n =>
    match rest with
    | [] => n ∈ forest ∧ nodeName n = q
    | _ :: _ => ∃ cs, FsNode.dir q cs ∈ forest ∧ IsNodeAt cs rest n

/-! ## SHA-256 (FIPS 180-4), as computed by the `sha2` crate

Bytes are `Nat`s below 256; words are `Nat`s reduced mod `2 ^ 32`. -/

/-- Rotate a 32-bit word right by `n` positions. -/
def rotr32 (x n : Nat) : Nat := ((x >>> n) ||| (x <<< (32 - n))) % 2 ^ 32

/-- The big Sigma-0 function of SHA-256. -/
def bSig0 (x : Nat) : Nat := rotr32 x 2 ^^^ rotr32 x 13 ^^^ rotr32 x 22

/-- The big Sigma-1 function of SHA-256. -/
def bSig1 (x : Nat) : Nat := rotr32 x 6 ^^^ rotr32 x 11 ^^^ rotr32 x 25

/-- The small sigma-0 function of SHA-256. -/
def sSig0 (x : Nat) : Nat := rotr32 x 7 ^^^ rotr32 x 18 ^^^ (x >>> 3)

/-- The small sigma-1 function of SHA-256. -/
def sSig1 (x : Nat) : Nat := rotr32 x 17 ^^^ rotr32 x 19 ^^^ (x >>> 10)

/-- The choice function of SHA-256. -/
def chF (x y z : Nat) : Nat := (x &&& y) ^^^ ((x ^^^ 0xffffffff) &&& z)

/-- The majority function of SHA-256. -/
def majF (x y z : Nat) : Nat := (x &&& y) ^^^ (x &&& z) ^^^ (y &&& z)

/-- The 64 round constants of SHA-256 (the fractional parts of the cube
roots of the first 64 primes, FIPS 180-4 section 4.2.2), in decimal. -/
def shaK : List Nat :=
  [1116352408, 1899447441, 3049323471, 3921009573, 961987163, 1508970993,
   2453635748, 2870763221, 3624381080, 310598401, 607225278, 1426881987,
   1925078388, 2162078206, 2614888103, 3248222580, 3835390401, 4022224774,
   264347078, 604807628, 770255983, 1249150122, 1555081692, 1996064986,
   2554220882, 2821834349, 2952996808, 3210313671, 3336571891, 3584528711,
   113926993, 338241895, 666307205, 773529912, 1294757372, 1396182291,
   1695183700, 1986661051, 2177026350, 2456956037, 2730485921, 2820302411,
   3259730800, 3345764771, 3516065817, 3600352804, 4094571909, 275423344,
   430227734, 506948616, 659060556, 883997877, 958139571, 1322822218,
   1537002063, 1747873779, 1955562222, 2024104815, 2227730452, 2361852424,
   2428436474, 2756734187, 3204031479, 3329325298]

/-- The eight 32-bit words of the SHA-256 state. -/
structure Hash8 where
  a : Nat
  b : Nat
  c : Nat
  d : Nat
  e : Nat
  f : Nat
  g : Nat
  h : Nat
deriving Repr, DecidableEq

/-- The SHA-256 initial state (FIPS 180-4 section 5.3.3), in decimal. -/
def sha256Init : Hash8 :=
  ⟨1779033703, 3144134277, 1013904242, 2773480762,
   1359893119, 2600822924, 528734635, 1541459225⟩

/-- SHA-256 padding: append `0x80`, zeros to 56 mod 64, then the bit length
as eight big-endian bytes. -/
def padMessage (msg : List Nat) : List Nat :=
  let lenBits := 8 * msg.length
  let k := (120 - (msg.length + 1) % 64) % 64
  msg ++ [0x80] ++ List.replicate k 0 ++
    [(lenBits >>> 56) % 256, (lenBits >>> 48) % 256, (lenBits >>> 40) % 256,
     (lenBits >>> 32) % 256, (lenBits >>> 24) % 256, (lenBits >>> 16) % 256,
     (lenBits >>> 8) % 256, lenBits % 256]

/-- Split a byte list into 64-byte blocks. -/
def toBlocks (l : List Nat) : List (List Nat) :=
  if h : l = [] then [] else l.take 64 :: toBlocks (l.drop 64)
termination_by l.length
decreasing_by
  simp only [List.length_drop]
  exact Nat.sub_lt (List.length_pos.mpr h) (by decide)

/-- Pack a block's bytes into big-endian 32-bit words. -/
def blockWords : List Nat → List Nat
  | b0 :: b1 :: b2 :: b3 :: rest =>
    (((b0 % 256) <<< 24) ||| ((b1 % 256) <<< 16) ||| ((b2 % 256) <<< 8) ||| (b3 % 256))
      :: blockWords rest
  | _ => []

/-- One step of the message-schedule extension: append the next word,
computed from the 2nd, 7th, 15th and 16th most recent words. -/
def scheduleStep (ws : List Nat) : List Nat :=
  let n := ws.length
  ws ++ [(sSig1 (ws.getD (n - 2) 0) + ws.getD (n - 7) 0
          + sSig0 (ws.getD (n - 15) 0) + ws.getD (n - 16) 0) % 2 ^ 32]

/-- Extend the 16 block words to the 64 schedule words. -/
def extendTo64 (ws : List Nat) : List Nat :=
  (List.range 48).foldl (fun acc _ => scheduleStep acc) ws

/-- One SHA-256 compression round, consuming a round constant paired with a
schedule word. -/
def roundStep (st : Hash8) (kw : Nat × Nat) : Hash8 :=
  let t1 := (st.h + bSig1 st.e + chF st.e st.f st.g + kw.1 + kw.2) % 2 ^ 32
  let t2 := (bSig0 st.a + majF st.a st.b st.c) % 2 ^ 32
  { a := (t1 + t2) % 2 ^ 32, b := st.a, c := st.b, d := st.c,
    e := (st.d + t1) % 2 ^ 32, f := st.e, g := st.f, h := st.g }

/-- Process one 64-byte block: run the 64 rounds and add the result into the
incoming state, word-wise mod `2 ^ 32`. -/
def processBlock (st : Hash8) (block : List Nat) : Hash8 :=
  let ws := extendTo64 (blockWords block)
  let fin := (shaK.zip ws).foldl roundStep st
  { a := (st.a + fin.a) % 2 ^ 32, b := (st.b + fin.b) % 2 ^ 32,
    c := (st.c + fin.c) % 2 ^ 32, d := (st.d + fin.d) % 2 ^ 32,
    e := (st.e + fin.e) % 2 ^ 32, f := (st.f + fin.f) % 2 ^ 32,
    g := (st.g + fin.g) % 2 ^ 32, h := (st.h + fin.h) % 2 ^ 32 }

/-- The four big-endian bytes of a 32-bit word. -/
def wordBytes (w : Nat) : List Nat :=
  [(w >>> 24) % 256, (w >>> 16) % 256, (w >>> 8) % 256, w % 256]

/-- The SHA-256 digest of a byte list, as its 32 digest bytes. -/
def sha256 (msg : List Nat) : List Nat :=
  let st := (toBlocks (padMessage msg)).foldl processBlock sha256Init
  wordBytes st.a ++ wordBytes st.b ++ wordBytes st.c ++ wordBytes st.d
    ++ wordBytes st.e ++ wordBytes st.f ++ wordBytes st.g ++ wordBytes st.h

/-- The sixteen lowercase hexadecimal digits. -/
def hexDigits : List Char := "0123456789abcdef".data

/-- The lowercase hexadecimal digit of a value below 16. -/
def hexChar (n : Nat) : Char := hexDigits.getD n '0'

/-- A byte rendered as two lowercase hexadecimal characters, as Rust's
`{:x}` formatting of a digest does byte by byte. -/
def byteHex (b : Nat) : List Char := [hexChar (b / 16 % 16), hexChar (b % 16)]

/-- The `format!("{:x}", hasher.finalize())` rendering: the SHA-256 digest
of a byte list as a lowercase hexadecimal string. -/
def sha256Hex (bytes : List Nat) : String := String.mk ((sha256 bytes).flatMap byteHex)

/-- The value produced by `create_archive` in `packaging.rs`: the walked
entries, the compressed archive bytes, and the digest of those bytes. -/
structure Archive where
  entries : List (List String × Bool)
  bytes : List Nat
  hash : String
deriving Repr

/-- The `create_archive` function of `packaging.rs`: walk the tree below
the root (the root itself is skipped by the `path == dir` test), append
every surviving entry, serialize and compress, then hash the final
compressed bytes.  `tarSer` and `gzip` model the external `tar` and
`flate2` crates; `ign` models the `.gitignore` rules honoured by the
walker. -/
def create_archive (tarSer : List (List String × Bool) → List Nat)
    (gzip : List Nat → List Nat) (ign : List String → Bool)
    (root : List FsNode) : Archive :=
  let entries := walkForest ign [] root
  let bytes := gzip (tarSer entries)
  { entries := entries, bytes := bytes, hash := sha256Hex bytes }

/-- The `extract_archive` function of `packaging.rs`: decompress and unpack
the archive bytes into entries; `unpack` models the external `GzDecoder`
plus `tar::Archive::unpack` decode direction. -/
def extract_archive (unpack : List Nat → List (List String × Bool))
    (bytes : List Nat) : List (List String × Bool) := unpack bytes

/-! ## Data model of `main.rs` (publish orchestrator)

Network endpoints are modelled by an environment of predetermined
outcomes; each call made is appended to an effect trace so that ordering
claims ("no API request before the rejection") are statable.  Local
filesystem reads done before the pipeline (`manifest::read`,
`detect_metadata`, `read_changelog`, `read_readme`, `dir_to_slug`) are
passed in as values. -/

/-- Mirror of `Manifest` in `types.rs`. -/
structure Manifest where
  origin : Option String
  cloned_at : Option String
  file_hash : Option String
  slug : Option String
  product_id : Option String
  publisher : Option String
  version : String
deriving DecidableEq, Repr

/-- Mirror of `CategoryRef` in `types.rs`. -/
structure CategoryRef where
  slug : String
  name : String
deriving DecidableEq, Repr

/-- Mirror of `Product` in `types.rs` (the fields the publish flow reads;
the remaining metadata fields are never consulted by `main.rs`). -/
structure Product where
  id : String
  slug : String
  category : Option CategoryRef
deriving DecidableEq, Repr

/-- The network requests a publish can make (methods of `BaroClient` used
by `cmd_publish`/`execute_publish`). -/
inductive ApiCall where
  | getMe
  | listCategories
  | listMyProducts
  | createProduct
  | createRelease
  | uploadToR2
  | confirmRelease
  | trackRemake
deriving DecidableEq, Repr

/-- Predetermined outcomes of the network endpoints.  `trackR` is the
outcome of `track_remake`, whose client method is declared outside the
sources at hand; per the spec it is a fallible lineage notification. -/
structure Env where
  me : Except String String
  categoriesR : Except String (List Category)
  myProductsR : Except String (List Product)
  createProductR : Except String String
  createReleaseR : Except String String
  uploadR : Except String Unit
  confirmR : Except String (Option String)
  trackR : Except String Unit

/-- How a publish invocation ends: success, a gate rejection (the source
prints the failures and exits non-zero), or an error return. -/
inductive PubResult where
  | ok
  | gateFailed (failures : List CheckFailure)
  | err (msg : String)
deriving DecidableEq, Repr

/-- Observable outcome of a publish invocation: the ordered network calls
made, the final result, the manifest written by `manifest::write` (if
reached), and the warnings printed to stderr. -/
structure ExecOutcome where
  trace : List ApiCall
  result : PubResult
  written : Option Manifest
  warnings : List String
deriving DecidableEq, Repr

/-- Mirror of `PublishContext` in `main.rs`. -/
structure PublishContext where
  slug : String
  product_name : String
  product_desc : Option String
  category_slug : String
  license : String
  version : String
  changelog_text : String
  readme : Option String
  existing_manifest : Option Manifest
deriving Repr

/-- The `STARTING_VERSIONS` constant of `main.rs`. -/
def STARTING_VERSIONS : List String := ["0.0.1", "0.1.0", "1.0.0"]

/-- The `validate_slug` function of `main.rs`: non-empty, first and last
characters alphanumeric, all characters lowercase alphanumeric or
hyphen.  (`Char.isAlphanum` matches Rust's `u8::is_ascii_alphanumeric` on
the strings at hand, and a non-ASCII leading or trailing character fails
both.) -/
def validate_slug (slug : String) : Bool :=
  match slug.data with
  | [] => false
  | c :: rest =>
    c.isAlphanum && ((c :: rest).getLastD c).isAlphanum
      && (c :: rest).all (fun ch => ch.isLower || ch.isDigit || ch == '-')

/-- Rust's `str::splitn(2, sep)`: the part before the first separator,
then the rest, or the whole string when the separator is absent. -/
def splitn2 (s : String) (sep : Char) : List String :=
  let pre := s.data.takeWhile (fun c => c != sep)
  let post := s.data.dropWhile (fun c => c != sep)
  match post with
  | [] => [String.mk pre]
  | _ :: rest => [String.mk pre, String.mk rest]

/-- Modelled from the spec: the `track_remake` client method called by
`execute_publish` step 8 is not among the given sources (`api.rs` only
declares `track_fork`; the call site in `main.rs` is the only trace of
it).  Per the spec's `track_provenance(origin_owner, origin_slug,
entity_id, origin_version) -> success|failure` contract it is a fallible
lineage notification; its outcome is the environment's `trackR` field. -/
def track_remake (env : Env) : Except String Unit := env.trackR

/-- Steps 4-8 of `execute_publish` in `main.rs`, from release creation on:
create the release, upload, confirm, write the merged manifest, then
best-effort track the remake when the record carries a fork origin whose
identifier splits into owner and slug.  `trace0` is the trace already
accumulated; `size` and `hash` mirror the archive data sent with the
release request.  A tracking failure is only a warning: the result stays
`ok` and the written manifest stands. -/
def finishPublish (env : Env) (ns : String) (ctx : PublishContext)
    (product_id : String) (size : Nat) (hash : String)
    (trace0 : List ApiCall) : ExecOutcome :=
  let _ := size
  let _ := hash
  match env.createReleaseR with
  | .error e => ⟨trace0 ++ [.createRelease], .err e, none, []⟩
  | .ok _release_id =>
    match env.uploadR with
    | .error e => ⟨trace0 ++ [.createRelease, .uploadToR2], .err e, none, []⟩
    | .ok _ =>
      match env.confirmR with
      | .error e => ⟨trace0 ++ [.createRelease, .uploadToR2, .confirmRelease], .err e, none, []⟩
      | .ok _review_status =>
        let updated_manifest : Manifest :=
          { origin := ctx.existing_manifest.bind (fun m => m.origin),
            cloned_at := ctx.existing_manifest.bind (fun m => m.cloned_at),
            file_hash := ctx.existing_manifest.bind (fun m => m.file_hash),
            slug := some ctx.slug,
            product_id := some product_id,
            publisher := some ns,
            version := ctx.version }
        let t3 := trace0 ++ [.createRelease, .uploadToR2, .confirmRelease]
        match updated_manifest.origin with
        | some origin =>
          if (splitn2 origin '/').length == 2 then
            match track_remake env with
            | .ok _ => ⟨t3 ++ [.trackRemake], .ok, some updated_manifest, []⟩
            | .error e =>
              ⟨t3 ++ [.trackRemake], .ok, some updated_manifest,
               ["Warning: could not track fork: " ++ e]⟩
          else ⟨t3, .ok, some updated_manifest, []⟩
        | none => ⟨t3, .ok, some updated_manifest, []⟩

/-- The `execute_publish` function of `main.rs`: list categories, run the
gate (a failing gate aborts with exit code 1), package the directory,
find or create the product, then hand over to `finishPublish`.  `entries`
is the gate's view of the working directory's direct children; `tree` is
the packaging walk's view of its contents. -/
def execute_publish (env : Env) (tarSer : List (List String × Bool) → List Nat)
    (gzip : List Nat → List Nat) (ign : List String → Bool) (tree : List FsNode)
    (entries : List String) (ns : String) (ctx : PublishContext) : ExecOutcome :=
  match env.categoriesR with
  | .error e => ⟨[.listCategories], .err e, none, []⟩
  | .ok categories =>
    let gate := run entries ctx.version ctx.product_desc ctx.category_slug categories
    if !gate.passed then ⟨[.listCategories], .gateFailed gate.failures, none, []⟩
    else
      let archive := create_archive tarSer gzip ign tree
      match env.myProductsR with
      | .error e => ⟨[.listCategories, .listMyProducts], .err e, none, []⟩
      | .ok my_products =>
        match my_products.find? (fun p => p.slug == ctx.slug) with
        | some ep =>
          finishPublish env ns ctx ep.id archive.bytes.length archive.hash
            [.listCategories, .listMyProducts]
        | none =>
          match ctx.product_desc with
          | none =>
            ⟨[.listCategories, .listMyProducts],
             .err "Description required (50+ chars) for first publish. Use --description or add to your Cargo.toml/package.json.",
             none, []⟩
          | some _desc =>
            match env.createProductR with
            | .error e => ⟨[.listCategories, .listMyProducts, .createProduct], .err e, none, []⟩
            | .ok created_id =>
              finishPublish env ns ctx created_id archive.bytes.length archive.hash
                [.listCategories, .listMyProducts, .createProduct]

/-- The rejection message of `cmd_publish` in `main.rs` for a forked but
not yet independently published project. -/
def forkRedirectMsg (origin version : String) : String :=
  "This is a forked product (from " ++ origin
    ++ "). Use `baro remake` to publish it as your own.\nExample: baro remake --version "
    ++ version ++ " --slug <your-slug> --category <category>"

/-- Steps 2b-6 of `cmd_publish` in `main.rs`, after the fork block check:
resolve the slug, metadata, category and changelog, then run
`execute_publish`.  `trace0` holds the calls already made (`getMe`). -/
def cmd_publish_rest (env : Env) (tarSer : List (List String × Bool) → List Nat)
    (gzip : List Nat → List Nat) (ign : List String → Bool) (tree : List FsNode)
    (entries : List String) (manifestR : Option Manifest) (dirSlug : String)
    (detected_name detected_desc changelogFile readme : Option String)
    (version : String) (changelog category name_flag description_flag : Option String)
    (license : String) (username : String) : ExecOutcome :=
  let slugR : Except String String :=
    match manifestR with
    | some m =>
      match m.slug with
      | some s => .ok s
      | none =>
        if !STARTING_VERSIONS.contains version then
          .error "No .baro/manifest.json found. This looks like an existing product.\nRun `baro init` first, or use a starting version (0.0.1, 0.1.0, 1.0.0)."
        else if !validate_slug dirSlug then
          .error ("Directory name '" ++ dirSlug ++ "' is not a valid slug. Run `baro init --slug <slug>` first.")
        else .ok dirSlug
    | none =>
      if !STARTING_VERSIONS.contains version then
        .error "No .baro/manifest.json found. This looks like an existing product.\nRun `baro init` first, or use a starting version (0.0.1, 0.1.0, 1.0.0)."
      else if !validate_slug dirSlug then
        .error ("Directory name '" ++ dirSlug ++ "' is not a valid slug. Run `baro init --slug <slug>` first.")
      else .ok dirSlug
  match slugR with
  | .error e => ⟨[.getMe], .err e, none, []⟩
  | .ok slug =>
    let product_name := (name_flag.or detected_name).getD slug
    let product_desc := description_flag.or detected_desc
    let catR : Except String (String × List ApiCall) :=
      match category with
      | some c => .ok (c, [.getMe])
      | none =>
        match env.myProductsR with
        | .error e => .error e
        | .ok my_products =>
          match my_products.find? (fun p => p.slug == slug) with
          | some existing =>
            .ok (((existing.category.map (fun c => c.slug)).getD "developer-tools"),
                 [.getMe, .listMyProducts])
          | none =>
            .error "Category required for first publish. Use --category <slug>.\nAvailable: developer-tools, productivity, ai-agents, data-tools, devops, design-tools, communication, education, finance, other"
    match category, catR with
    | none, .error e => ⟨[.getMe, .listMyProducts], .err e, none, []⟩
    | _, .error e => ⟨[.getMe], .err e, none, []⟩
    | _, .ok (category_slug, trace0) =>
      let changelog_text := changelog.getD (changelogFile.getD ("Release " ++ version))
      let ctx : PublishContext :=
        { slug := slug, product_name := product_name, product_desc := product_desc,
          category_slug := category_slug, license := license, version := version,
          changelog_text := changelog_text, readme := readme,
          existing_manifest := manifestR }
      let exec := execute_publish env tarSer gzip ign tree entries username ctx
      ⟨trace0 ++ exec.trace, exec.result, exec.written, exec.warnings⟩

/-- The `cmd_publish` function of `main.rs`: fetch the caller's identity
(`get_me`, a network request, made first), read the local manifest, reject
a forked-but-unpublished project with a redirect to `baro remake`, and
otherwise continue with `cmd_publish_rest`.  Credential loading
(`auth::get_token`) is local file I/O in the non-refresh case and is not
traced. -/
def cmd_publish (env : Env) (tarSer : List (List String × Bool) → List Nat)
    (gzip : List Nat → List Nat) (ign : List String → Bool) (tree : List FsNode)
    (entries : List String) (manifestR : Option Manifest) (dirSlug : String)
    (detected_name detected_desc changelogFile readme : Option String)
    (version : String) (changelog category name_flag description_flag : Option String)
    (license : String) : ExecOutcome :=
  match env.me with
  | .error e => ⟨[.getMe], .err e, none, []⟩
  | .ok username =>
    match manifestR with
    | some m =>
      if m.origin.isSome && m.product_id.isNone then
        ⟨[.getMe], .err (forkRedirectMsg (m.origin.getD "unknown") version), none, []⟩
      else
        cmd_publish_rest env tarSer gzip ign tree entries manifestR dirSlug
          detected_name detected_desc changelogFile readme
          version changelog category name_flag description_flag license username
    | none =>
      cmd_publish_rest env tarSer gzip ign tree entries manifestR dirSlug
        detected_name detected_desc changelogFile readme
        version changelog category name_flag description_flag license username

/-! ## Concrete instances used to instantiate the theorems -/

/-- A concrete tree with an excluded `.git` directory (with contents), a
kept file, and a dot-env file. -/
def rootW : List FsNode :=
  [FsNode.dir ".git" [FsNode.file "cfg"], FsNode.file "keep.txt",
   FsNode.file ".env.local"]

/-- The entries the packaging walk yields on `rootW`. -/
def entriesW : List (List String × Bool) := [(["keep.txt"], false)]

/-- An environment in which every endpoint succeeds. -/
def envAllOk : Env :=
  { me := .ok "alice",
    categoriesR := .ok [{ id := 1, slug := "tools", name := "Tools", description := none }],
    myProductsR := .ok [{ id := "pid1", slug := "myslug", category := none }],
    createProductR := .ok "pid2",
    createReleaseR := .ok "rel1",
    uploadR := .ok (),
    confirmR := .ok (some "published"),
    trackR := .ok () }

/-- Like `envAllOk` but the provenance-tracking endpoint fails. -/
def envTrackFail : Env := { envAllOk with trackR := .error "boom" }

/-- A manifest carrying only the fork facet: an origin but no publish
identity. -/
def forkManifest : Manifest :=
  { origin := some "bob/widget", cloned_at := some "2024-01-01T00:00:00Z",
    file_hash := some "deadbeef", slug := none, product_id := none,
    publisher := none, version := "1.0.0" }

/-- A publish context for a forked-then-remade project whose gate inputs
pass all checks (paired with `envAllOk`'s category list and the entries
`["Cargo.toml", "README.md"]`). -/
def publishCtxW : PublishContext :=
  { slug := "myslug", product_name := "My Product", product_desc := none,
    category_slug := "tools", license := "MIT", version := "1.0.0",
    changelog_text := "Release 1.0.0", readme := none,
    existing_manifest := some forkManifest }

/-! ## Helper lemmas -/

/-- The gate's failure list is the in-order concatenation of the six
checks' independent contributions; no check's outcome changes another's. -/
theorem run_failures_eq (entries : List String) (version : String)
    (description : Option String) (category_slug : String) (categories : List Category) :
    (run entries version description category_slug categories).failures
      = buildFailures entries ++ readmeFailures entries ++ secretFailures entries
        ++ versionFailures version ++ descriptionFailures description
        ++ categoryFailures category_slug categories := rfl

/-- A directory with none of the recognized build files makes the
build-file check emit its failure. -/
theorem buildFailures_of_missing (entries : List String)
    (hmiss : ∀ f ∈ BUILD_FILES, f ∉ entries) :
    buildFailures entries
      = [{ message := "No build file found (Cargo.toml, package.json, Makefile, etc.)",
           ai_fix_prompt := "Create a build file (e.g., Cargo.toml for Rust, package.json for Node.js) that describes how to build this project." }] := by
  have h : BUILD_FILES.any (dirContains entries) = false := by
    simp only [List.any_eq_false, dirContains]
    intro f hf
    simpa using hmiss f hf
  simp [buildFailures, h]

/-! ## Claim theorems: the publish gate -/

/-- C5: for every invocation of the publish gate, the returned
`GateResult` satisfies `passed = failures.isEmpty`. -/
theorem gate_passed_iff_no_failures (entries : List String) (version : String)
    (description : Option String) (category_slug : String) (categories : List Category) :
    (run entries version description category_slug categories).passed
      = (run entries version description category_slug categories).failures.isEmpty := rfl

/-- C6: the gate accumulates every violation — its failure list is the
concatenation of the independent checks — and for a directory containing
none of the recognized build-descriptor files the failure list contains
the build-file message, regardless of the README, secret, version,
description and category inputs. -/
theorem gate_build_failure_always_reported (entries : List String) (version : String)
    (description : Option String) (category_slug : String) (categories : List Category)
    (hmiss : ∀ f ∈ BUILD_FILES, f ∉ entries) :
    ∃ f ∈ (run entries version description category_slug categories).failures,
      f.message = "No build file found (Cargo.toml, package.json, Makefile, etc.)" := by
  rw [run_failures_eq, buildFailures_of_missing entries hmiss]
  refine ⟨{ message := "No build file found (Cargo.toml, package.json, Makefile, etc.)",
            ai_fix_prompt := "Create a build file (e.g., Cargo.toml for Rust, package.json for Node.js) that describes how to build this project." },
          ?_, rfl⟩
  simp

/-- Witness for C6: a directory with no entries at all still reports the
build-file failure. -/
theorem gate_build_failure_always_reported_witness :
    ∃ f ∈ (run [] "1.0.0" none "tools" []).failures,
      f.message = "No build file found (Cargo.toml, package.json, Makefile, etc.)" :=
  gate_build_failure_always_reported [] "1.0.0" none "tools" [] (by decide)

/-- C7 counterexample: a supplied description of 30 characters — fewer
than 50 — for which the gate's length check does not fire, because the
source compares `str::len`, the UTF-8 byte count (here 60), not the
character count. -/
theorem description_check_counts_bytes_not_chars :
    multibyteDesc.data.length = 30
    ∧ multibyteDesc.data.length < 50
    ∧ descriptionFailures (some multibyteDesc) = [] := by
  refine ⟨by decide, by decide, by decide⟩

/-- C7 amended: the description-length failure fires iff a description is
supplied and its UTF-8 byte length is below 50; omission never fires it;
when it fires, the message reports the byte length (which equals the
character count only for ASCII descriptions). -/
theorem description_check_fires_iff_bytelen (d : String) :
    descriptionFailures none = []
    ∧ ((descriptionFailures (some d)).isEmpty = false ↔ utf8Len d < 50)
    ∧ (utf8Len d < 50 →
        (descriptionFailures (some d)).map (fun f => f.message)
          = ["Description too short (" ++ toString (utf8Len d) ++ " chars, need 50+)"]) := by
  refine ⟨rfl, ?_, ?_⟩ <;> unfold descriptionFailures <;> split <;> simp_all

/-- Witness for C7's amended theorem at the 9-byte ASCII description used
by the source's own test. -/
theorem description_check_fires_iff_bytelen_witness :
    (descriptionFailures (some "Too short")).map (fun f => f.message)
      = ["Description too short (9 chars, need 50+)"] := by
  have h := (description_check_fires_iff_bytelen "Too short").2.2 (by decide)
  simpa using h

/-! ## Claim theorems: packaging vs gate on `.env.example` -/

/-- C10: packaging's dot-env exclusion has no exemption for the example
variant — `create_archive`'s walk drops every file whose name starts with
`.env` — while the gate's secret check exempts the literal
`.env.example`; so a directory holding `.env.example` passes the secret
check yet the archived walk omits the file. -/
theorem packaging_env_exclusion_vs_gate_exemption :
    (∀ (ign : List String → Bool) (pre : List String) (name : String),
        strStarts name ".env" = true → walkNode ign pre (FsNode.file name) = [])
    ∧ isSecretName ".env.example" = false
    ∧ secretFailures ["Cargo.toml", "README.md", ".env.example"] = []
    ∧ walkForest (fun _ => false) []
        [FsNode.file "Cargo.toml", FsNode.file "README.md", FsNode.file ".env.example"]
        = [(["Cargo.toml"], false), (["README.md"], false)] := by
  refine ⟨?_, by decide, by decide, by decide⟩
  intro ign pre name h
  simp [walkNode, filterEntry, h]

/-- Witness for C10: the exempted `.env.example` itself is dropped by the
packaging walk. -/
theorem packaging_env_exclusion_vs_gate_exemption_witness :
    walkNode (fun _ => false) [] (FsNode.file ".env.example") = [] :=
  packaging_env_exclusion_vs_gate_exemption.1 (fun _ => false) [] ".env.example" (by decide)

/-! ## Claim theorems: the archive hash -/

/-- The SHA-256 digest is always 32 bytes. -/
theorem sha256_length (msg : List Nat) : (sha256 msg).length = 32 := by
  simp [sha256, wordBytes]

/-- Rendering a byte list in hex doubles its length. -/
theorem flatMap_byteHex_length (l : List Nat) : (l.flatMap byteHex).length = 2 * l.length := by
  induction l with
  | nil => rfl
  | cons b t ih =>
    have hb : (byteHex b).length = 2 := rfl
    simp only [List.flatMap_cons, List.length_append, hb, ih, List.length_cons]
    omega

/-- Every character `hexChar` produces is one of the sixteen lowercase
hexadecimal digits. -/
theorem hexChar_mem (n : Nat) : hexDigits.contains (hexChar n) = true := by
  unfold hexChar List.getD
  cases e : hexDigits.get? n with
  | none => decide
  | some c =>
    have hc : c ∈ hexDigits := List.get?_mem e
    simpa using hc

/-- C4: for every directory (and any behaviour of the external `tar` and
`flate2` crates), the hash returned by `create_archive` is the SHA-256
digest of the returned compressed bytes — not of the uncompressed
content — rendered as a 64-character string of lowercase hexadecimal
digits. -/
theorem create_archive_hash_spec (tarSer : List (List String × Bool) → List Nat)
    (gzip : List Nat → List Nat) (ign : List String → Bool) (root : List FsNode) :
    (create_archive tarSer gzip ign root).hash
        = sha256Hex (create_archive tarSer gzip ign root).bytes
    ∧ (create_archive tarSer gzip ign root).hash.length = 64
    ∧ ((create_archive tarSer gzip ign root).hash.data.all
        (fun c => hexDigits.contains c)) = true := by
  refine ⟨rfl, ?_, ?_⟩
  · show (sha256Hex (gzip (tarSer (walkForest ign [] root)))).length = 64
    unfold sha256Hex
    show ((sha256 _).flatMap byteHex).length = 64
    rw [flatMap_byteHex_length, sha256_length]
  · show ((sha256Hex (gzip (tarSer (walkForest ign [] root)))).data.all
      (fun c => hexDigits.contains c)) = true
    unfold sha256Hex
    rw [List.all_eq_true]
    intro c hc
    rw [List.mem_flatMap] at hc
    obtain ⟨b, -, hcb⟩ := hc
    simp only [byteHex, List.mem_cons, List.not_mem_nil, or_false] at hcb
    rcases hcb with rfl | rfl
    · exact hexChar_mem _
    · exact hexChar_mem _

/-! ## Claim theorems: the version pattern -/

/-- Peeling one group off an intercalation by dots. -/
theorem intercalate_dot_cons (g : List Char) (gs : List (List Char)) :
    List.intercalate ['.'] (g :: gs) = g ++ dotGroups gs := by
  induction gs generalizing g with
  | nil => simp [List.intercalate, List.intersperse, dotGroups]
  | cons g2 t ih =>
    have h1 : List.intercalate ['.'] (g :: g2 :: t)
        = g ++ ['.'] ++ List.intercalate ['.'] (g2 :: t) := by
      simp [List.intercalate, List.intersperse]
    rw [h1, ih]
    simp [dotGroups]

/-- An intercalation of nonempty digit groups is nonempty. -/
theorem intercalate_groups_ne_nil (gs : List (List Char)) (hne : gs ≠ [])
    (hgs : ∀ g ∈ gs, IsDigitGroup g) : List.intercalate ['.'] gs ≠ [] := by
  obtain ⟨g, t, rfl⟩ := List.exists_cons_of_ne_nil hne
  rw [intercalate_dot_cons]
  have hg : g ≠ [] := (hgs g (by simp)).1
  cases g with
  | nil => exact absurd rfl hg
  | cons a g2 => simp

/-- Characterization of the `regex_lite` loop in both states: with
`expectDigit = false` the remaining input is a (possibly empty) digit run
followed by dot-prefixed digit groups; with `expectDigit = true` it is a
full dot-separated nonempty group list. -/
theorem regexLiteLoop_spec (l : List Char) :
    (regexLiteLoop l false = true ↔
      ∃ ds gs, (∀ c ∈ ds, c.isDigit = true) ∧ (∀ g ∈ gs, IsDigitGroup g)
        ∧ l = ds ++ dotGroups gs)
    ∧ (regexLiteLoop l true = true ↔
      ∃ gs, gs ≠ [] ∧ (∀ g ∈ gs, IsDigitGroup g) ∧ l = List.intercalate ['.'] gs) := by
  induction l with
  | nil =>
    constructor
    · constructor
      · intro _
        exact ⟨[], [], by simp, by simp, by simp [dotGroups]⟩
      · intro _
        decide
    · constructor
      · intro h
        simp [regexLiteLoop] at h
      · rintro ⟨gs, hne, hgs, hl⟩
        exact absurd hl.symm (intercalate_groups_ne_nil gs hne hgs)
  | cons c l ih =>
    obtain ⟨ihF, ihT⟩ := ih
    by_cases hdot : c = '.'
    · subst hdot
      have hdig : ('.' : Char).isDigit = false := by decide
      constructor
      · rw [show regexLiteLoop ('.' :: l) false = regexLiteLoop l true by
            simp [regexLiteLoop]]
        rw [ihT]
        constructor
        · rintro ⟨gs, hne, hgs, hl⟩
          refine ⟨[], gs, by simp, hgs, ?_⟩
          obtain ⟨g, t, rfl⟩ := List.exists_cons_of_ne_nil hne
          rw [intercalate_dot_cons] at hl
          simp [dotGroups, hl]
        · rintro ⟨ds, gs, hds, hgs, hl⟩
          cases ds with
          | cons d ds2 =>
            rw [List.cons_append] at hl
            injection hl with h1 h2
            have hdd := hds d (by simp)
            rw [← h1, hdig] at hdd
            cases hdd
          | nil =>
            simp only [List.nil_append] at hl
            cases gs with
            | nil => simp [dotGroups] at hl
            | cons g t =>
              have hd2 : dotGroups (g :: t) = '.' :: (g ++ dotGroups t) := by
                simp [dotGroups]
              rw [hd2] at hl
              injection hl with h1 h2
              exact ⟨g :: t, by simp, hgs, by rw [intercalate_dot_cons, h2]⟩
      · rw [show regexLiteLoop ('.' :: l) true = false by
            simp [regexLiteLoop, hdig]]
        constructor
        · intro h
          cases h
        · rintro ⟨gs, hne, hgs, hl⟩
          obtain ⟨g, t, rfl⟩ := List.exists_cons_of_ne_nil hne
          rw [intercalate_dot_cons] at hl
          obtain ⟨hgne, hgd⟩ := hgs g (by simp)
          cases g with
          | nil => exact absurd rfl hgne
          | cons a g2 =>
            rw [List.cons_append] at hl
            injection hl with h1 h2
            have hda := hgd a (by simp)
            rw [← h1, hdig] at hda
            cases hda
    · have hbeq : (c == '.') = false := by simp [hdot]
      by_cases hd : c.isDigit = true
      · constructor
        · rw [show regexLiteLoop (c :: l) false = regexLiteLoop l false by
              simp [regexLiteLoop, hbeq, hd]]
          rw [ihF]
          constructor
          · rintro ⟨ds, gs, hds, hgs, hl⟩
            refine ⟨c :: ds, gs, ?_, hgs, by simp [hl]⟩
            intro x hx
            rw [List.mem_cons] at hx
            rcases hx with rfl | hx
            · exact hd
            · exact hds x hx
          · rintro ⟨ds, gs, hds, hgs, hl⟩
            cases ds with
            | nil =>
              simp only [List.nil_append] at hl
              cases gs with
              | nil => simp [dotGroups] at hl
              | cons g t =>
                have hd2 : dotGroups (g :: t) = '.' :: (g ++ dotGroups t) := by
                  simp [dotGroups]
                rw [hd2] at hl
                injection hl with h1 h2
                exact absurd h1 hdot
            | cons d ds2 =>
              rw [List.cons_append] at hl
              injection hl with h1 h2
              exact ⟨ds2, gs, fun x hx => hds x (by simp [hx]), hgs, h2⟩
        · rw [show regexLiteLoop (c :: l) true = regexLiteLoop l false by
              simp [regexLiteLoop, hd]]
          rw [ihF]
          constructor
          · rintro ⟨ds, gs, hds, hgs, hl⟩
            refine ⟨(c :: ds) :: gs, by simp, ?_, ?_⟩
            · intro g hg
              rw [List.mem_cons] at hg
              rcases hg with rfl | hg
              · refine ⟨by simp, ?_⟩
                intro x hx
                rw [List.mem_cons] at hx
                rcases hx with rfl | hx
                · exact hd
                · exact hds x hx
              · exact hgs g hg
            · rw [intercalate_dot_cons]
              simp [hl]
          · rintro ⟨gs, hne, hgs, hl⟩
            obtain ⟨g, t, rfl⟩ := List.exists_cons_of_ne_nil hne
            rw [intercalate_dot_cons] at hl
            obtain ⟨hgne, hgd⟩ := hgs g (by simp)
            cases g with
            | nil => exact absurd rfl hgne
            | cons a g2 =>
              rw [List.cons_append] at hl
              injection hl with h1 h2
              exact ⟨g2, t, fun x hx => hgd x (by simp [hx]),
                     fun g hg => hgs g (by simp [hg]), h2⟩
      · have hde : c.isDigit = false := by simpa using hd
        constructor
        · rw [show regexLiteLoop (c :: l) false = false by
              simp [regexLiteLoop, hbeq, hde]]
          constructor
          · intro h
            cases h
          · rintro ⟨ds, gs, hds, hgs, hl⟩
            cases ds with
            | cons d ds2 =>
              rw [List.cons_append] at hl
              injection hl with h1 h2
              have hdd := hds d (by simp)
              rw [← h1, hde] at hdd
              cases hdd
            | nil =>
              simp only [List.nil_append] at hl
              cases gs with
              | nil => simp [dotGroups] at hl
              | cons g t =>
                have hd2 : dotGroups (g :: t) = '.' :: (g ++ dotGroups t) := by
                  simp [dotGroups]
                rw [hd2] at hl
                injection hl with h1 h2
                exact absurd h1 hdot
        · rw [show regexLiteLoop (c :: l) true = false by
              simp [regexLiteLoop, hde]]
          constructor
          · intro h
            cases h
          · rintro ⟨gs, hne, hgs, hl⟩
            obtain ⟨g, t, rfl⟩ := List.exists_cons_of_ne_nil hne
            rw [intercalate_dot_cons] at hl
            obtain ⟨hgne, hgd⟩ := hgs g (by simp)
            cases g with
            | nil => exact absurd rfl hgne
            | cons a g2 =>
              rw [List.cons_append] at hl
              injection hl with h1 h2
              have hda := hgd a (by simp)
              rw [← h1, hde] at hda
              cases hda

/-- The `regex_lite` matcher accepts exactly the spec's pattern. -/
theorem regex_lite_iff (s : String) :
    regex_lite s = true ↔ matchesVersionPattern s := by
  unfold regex_lite matchesVersionPattern
  by_cases he : s.data.isEmpty = true
  · rw [if_pos he]
    have hd : s.data = [] := by simpa using he
    constructor
    · intro h
      cases h
    · rintro ⟨gs, hne, hgs, hl⟩
      rw [hd] at hl
      exact absurd hl.symm (intercalate_groups_ne_nil gs hne hgs)
  · rw [if_neg he]
    exact (regexLiteLoop_spec s.data).2

/-- C2: the gate emits no version failure for `s` iff `s` matches
`^\d+(\.\d+)*$` — one or more ASCII-digit groups separated by single
dots, non-empty, no trailing dot. -/
theorem gate_version_acceptance (s : String) :
    versionFailures s = [] ↔ matchesVersionPattern s := by
  rw [← regex_lite_iff]
  unfold versionFailures
  constructor
  · intro h
    rcases hb : (s.data.isEmpty || !(regex_lite s)) with _ | _
    · simp only [Bool.or_eq_false_iff, Bool.not_eq_false'] at hb
      exact hb.2
    · simp [hb] at h
  · intro hr
    have hne : s.data.isEmpty = false := by
      by_contra hcc
      have he : s.data.isEmpty = true := by simpa using hcc
      unfold regex_lite at hr
      rw [if_pos he] at hr
      cases hr
    simp [hne, hr]

/-- Witness for C2: `"2.3.4.5"` matches the pattern and is accepted;
`"1.0.a"` is rejected. -/
theorem gate_version_acceptance_witness :
    matchesVersionPattern "2.3.4.5" ∧ versionFailures "1.0.a" ≠ [] :=
  ⟨(gate_version_acceptance "2.3.4.5").mp (by decide), by decide⟩

/-! ## Claim theorems: archive exclusions -/

/-- Cancelling a common prefix of two prefix-ordered lists. -/
theorem prefix_append_cancel {α : Type} {l a b : List α}
    (h : l ++ a <+: l ++ b) : a <+: b := by
  obtain ⟨t, ht⟩ := h
  rw [List.append_assoc] at ht
  exact ⟨t, List.append_cancel_left ht⟩

/-- Every node of a well-formed list is well-formed. -/
theorem WFChildren_mem {forest : List FsNode} {n : FsNode}
    (hwf : WFChildren forest) (hn : n ∈ forest) : WFNode n := by
  induction forest with
  | nil => cases hn
  | cons m rest ih =>
    simp only [WFChildren] at hwf
    rw [List.mem_cons] at hn
    rcases hn with rfl | hn
    · exact hwf.1
    · exact ih hwf.2 hn

/-- In a well-formed sibling list, a name determines the node. -/
theorem node_name_unique {forest : List FsNode} (hnd : (forest.map nodeName).Nodup)
    {a b : FsNode} (ha : a ∈ forest) (hb : b ∈ forest)
    (hab : nodeName a = nodeName b) : a = b :=
  List.inj_on_of_nodup_map hnd ha hb hab

/-- Membership in a forest walk comes from one of the siblings. -/
theorem mem_walkForest (ign : List String → Bool) (pre : List String)
    (forest : List FsNode) (p : List String) (b : Bool) :
    (p, b) ∈ walkForest ign pre forest ↔ ∃ m ∈ forest, (p, b) ∈ walkNode ign pre m := by
  induction forest with
  | nil => simp [walkForest]
  | cons n rest ih =>
    rw [walkForest, List.mem_append, ih]
    constructor
    · rintro (h | ⟨m, hm, hmw⟩)
      · exact ⟨n, by simp, h⟩
      · exact ⟨m, by simp [hm], hmw⟩
    · rintro ⟨m, hm, hmw⟩
      rw [List.mem_cons] at hm
      rcases hm with rfl | hm
      · exact Or.inl hmw
      · exact Or.inr ⟨m, hm, hmw⟩

mutual
/-- Every path yielded below `pre` by a node walk extends `pre` with the
node's name. -/
theorem walkNode_shape (ign : List String → Bool) (pre : List String) :
    ∀ (n : FsNode) (p : List String) (b : Bool),
      (p, b) ∈ walkNode ign pre n → ∃ t, p = pre ++ nodeName n :: t
  | .file name, p, b, hmem => by
    unfold walkNode at hmem
    split at hmem
    · rw [List.mem_singleton] at hmem
      injection hmem with h1 h2
      exact ⟨[], by simp [h1, nodeName]⟩
    · cases hmem
  | .dir name children, p, b, hmem => by
    unfold walkNode at hmem
    split at hmem
    · rw [List.mem_cons] at hmem
      rcases hmem with h | h
      · injection h with h1 h2
        exact ⟨[], by simp [h1, nodeName]⟩
      · obtain ⟨m, hm, t, ht⟩ := walkForest_shape ign (pre ++ [name]) children p b h
        exact ⟨nodeName m :: t, by simp [ht, nodeName]⟩
    · cases hmem

/-- Every path yielded below `pre` by a forest walk extends `pre` with
some sibling's name. -/
theorem walkForest_shape (ign : List String → Bool) (pre : List String) :
    ∀ (forest : List FsNode) (p : List String) (b : Bool),
      (p, b) ∈ walkForest ign pre forest →
      ∃ m ∈ forest, ∃ t, p = pre ++ nodeName m :: t
  | [], p, b, hmem => by cases hmem
  | n :: rest, p, b, hmem => by
    rw [walkForest, List.mem_append] at hmem
    rcases hmem with h | h
    · obtain ⟨t, ht⟩ := walkNode_shape ign pre n p b h
      exact ⟨n, by simp, t, ht⟩
    · obtain ⟨m, hm, t, ht⟩ := walkForest_shape ign pre rest p b h
      exact ⟨m, by simp [hm], t, ht⟩
end

/-- No entry of the walk extends the path of an excluded directory. -/
theorem walk_omits_excluded_aux (ign : List String → Bool) (q : List String) :
    ∀ (forest : List FsNode) (pre : List String) (ename : String) (cs : List FsNode),
      WFForest forest → IsNodeAt forest q (FsNode.dir ename cs) →
      ename ∈ EXCLUDED_DIRS →
      ∀ p b, (p, b) ∈ walkForest ign pre forest → ¬ (pre ++ q) <+: p := by
  induction q with
  | nil =>
    intro forest pre ename cs hwf hnode hex p b hmem
    cases hnode
  | cons e q2 ihq =>
    intro forest pre ename cs hwf hnode hex p b hmem hpre
    obtain ⟨m, hmf, hmw⟩ := (mem_walkForest ign pre forest p b).mp hmem
    obtain ⟨t, rfl⟩ := walkNode_shape ign pre m p b hmw
    have hcanc := prefix_append_cancel hpre
    rw [List.cons_prefix_cons] at hcanc
    obtain ⟨hname, hrest⟩ := hcanc
    cases q2 with
    | nil =>
      simp only [IsNodeAt] at hnode
      obtain ⟨hmemf, hnm⟩ := hnode
      have hme : nodeName m = ename := by
        simp only [nodeName] at hnm
        rw [← hname, hnm]
      have hmeq : m = FsNode.dir ename cs :=
        node_name_unique hwf.1 hmf hmemf hme
      subst hmeq
      have hfe : filterEntry (FsNode.dir ename cs) = false := by
        simp [filterEntry]
        exact hex
      rw [walkNode] at hmw
      rw [hfe] at hmw
      simp at hmw
    | cons e2 q3 =>
      simp only [IsNodeAt] at hnode
      obtain ⟨cs0, hdmem, hnode2⟩ := hnode
      have hme : nodeName m = e := hname.symm
      have hmeq : m = FsNode.dir e cs0 :=
        node_name_unique hwf.1 hmf hdmem hme
      subst hmeq
      rw [walkNode] at hmw
      split at hmw
      · rw [List.mem_cons] at hmw
        rcases hmw with h | h
        · injection h with h1 h2
          have h1b := List.append_cancel_left h1
          injection h1b with _ ht0
          rw [ht0] at hrest
          obtain ⟨u, hu⟩ := hrest
          simp at hu
        · have hwfc : WFForest cs0 := by
            have := WFChildren_mem hwf.2 hdmem
            simp only [WFNode] at this
            exact this
          have := ihq cs0 (pre ++ [e]) ename cs hwfc hnode2 hex _ b h
          apply this
          rw [List.append_assoc]
          exact hpre
      · cases hmw

/-- No entry of the walk has the path of a dot-env file. -/
theorem walk_omits_env_aux (ign : List String → Bool) (q : List String) :
    ∀ (forest : List FsNode) (pre : List String) (fname : String),
      WFForest forest → IsNodeAt forest q (FsNode.file fname) →
      strStarts fname ".env" = true →
      ∀ p b, (p, b) ∈ walkForest ign pre forest → p ≠ pre ++ q := by
  induction q with
  | nil =>
    intro forest pre fname hwf hnode henv p b hmem
    cases hnode
  | cons e q2 ihq =>
    intro forest pre fname hwf hnode henv p b hmem hp
    obtain ⟨m, hmf, hmw⟩ := (mem_walkForest ign pre forest p b).mp hmem
    obtain ⟨t, ht⟩ := walkNode_shape ign pre m p b hmw
    rw [ht] at hp
    have hcanc : nodeName m :: t = e :: q2 := List.append_cancel_left hp
    injection hcanc with hname hrest
    cases q2 with
    | nil =>
      simp only [IsNodeAt] at hnode
      obtain ⟨hmemf, hnm⟩ := hnode
      have hmeq : m = FsNode.file fname :=
        node_name_unique hwf.1 hmf hmemf (hname.trans hnm.symm)
      subst hmeq
      have hfe : filterEntry (FsNode.file fname) = false := by
        simp [filterEntry, henv]
      rw [walkNode] at hmw
      rw [hfe] at hmw
      simp at hmw
    | cons e2 q3 =>
      simp only [IsNodeAt] at hnode
      obtain ⟨cs0, hdmem, hnode2⟩ := hnode
      have hmeq : m = FsNode.dir e cs0 :=
        node_name_unique hwf.1 hmf hdmem hname
      subst hmeq
      rw [walkNode] at hmw
      split at hmw
      · rw [List.mem_cons] at hmw
        rcases hmw with h | h
        · injection h with h1 h2
          rw [ht] at h1
          have h1b := List.append_cancel_left h1
          injection h1b with _ h3
          cases hrest.symm.trans h3
        · have hwfc : WFForest cs0 := by
            have := WFChildren_mem hwf.2 hdmem
            simp only [WFNode] at this
            exact this
          have hne := ihq cs0 (pre ++ [e]) fname hwfc hnode2 henv _ b h
          apply hne
          rw [ht, hrest, List.append_assoc]
          simp [hname]
      · cases hmw

/-- C3: for every directory tree with distinct sibling names, every
excluded infrastructure directory (`.git`, `.baro`, `target`,
`node_modules`, `.next`, at any depth) and every dot-env-prefixed file
other than the example variant is absent from the extracted archive —
the excluded directory's entire subtree is omitted — assuming the
external tar+gzip codec round-trips the archived entries. -/
theorem archive_excludes_infra_and_env
    (tarSer : List (List String × Bool) → List Nat) (gzip : List Nat → List Nat)
    (unpack : List Nat → List (List String × Bool)) (ign : List String → Bool)
    (root : List FsNode) (q : List String)
    (hrt : extract_archive unpack (create_archive tarSer gzip ign root).bytes
            = (create_archive tarSer gzip ign root).entries)
    (hwf : WFForest root) :
    (∀ ename cs, IsNodeAt root q (FsNode.dir ename cs) → ename ∈ EXCLUDED_DIRS →
      ∀ p b, (p, b) ∈ extract_archive unpack (create_archive tarSer gzip ign root).bytes →
        ¬ q <+: p)
    ∧ (∀ fname, IsNodeAt root q (FsNode.file fname) →
        strStarts fname ".env" = true → fname ≠ ".env.example" →
        ∀ p b, (p, b) ∈ extract_archive unpack (create_archive tarSer gzip ign root).bytes →
          p ≠ q) := by
  rw [hrt]
  have hent : (create_archive tarSer gzip ign root).entries = walkForest ign [] root := rfl
  rw [hent]
  constructor
  · intro ename cs hnode hex p b hmem
    have h := walk_omits_excluded_aux ign q root [] ename cs hwf hnode hex p b hmem
    simpa using h
  · intro fname hnode henv _ p b hmem
    have h := walk_omits_env_aux ign q root [] fname hwf hnode henv p b hmem
    simpa using h

/-- Witness for C3 at the concrete tree `rootW`: the walk's only entry is
`keep.txt`, which neither lies below `.git` nor is the dot-env file. -/
theorem archive_excludes_infra_and_env_witness :
    ¬ ([".git"] : List String) <+: ["keep.txt"] := by
  have h := (archive_excludes_infra_and_env (fun _ => []) (fun l => l)
      (fun _ => entriesW) (fun _ => false) rootW [".git"] rfl
      ⟨by decide, by simp [WFChildren, WFNode]⟩).1
  exact h ".git" [FsNode.file "cfg"] (by simp [IsNodeAt, rootW, nodeName]) (by decide)
    ["keep.txt"] false (by simp [extract_archive, entriesW])

/-! ## Claim theorems: the fork block in `cmd_publish` -/

/-- C1 counterexample: a working directory whose manifest has a fork
origin but no publish identity is rejected by the normal publish path,
but the rejection is not free of network calls — the `get_me` API
request has already been made when it happens (the effect trace at the
rejection is `[getMe]`, not `[]`). -/
theorem publish_fork_block_counterexample :
    (cmd_publish envAllOk (fun _ => []) (fun l => l) (fun _ => false) [] []
        (some forkManifest) "widget" none none none none
        "1.0.0" none none none none "MIT").result
      = PubResult.err (forkRedirectMsg "bob/widget" "1.0.0")
    ∧ (cmd_publish envAllOk (fun _ => []) (fun l => l) (fun _ => false) [] []
        (some forkManifest) "widget" none none none none
        "1.0.0" none none none none "MIT").trace = [ApiCall.getMe]
    ∧ [ApiCall.getMe] ≠ ([] : List ApiCall) :=
  ⟨rfl, rfl, by decide⟩

/-- C1 amended: for every manifest with a fork origin and no publish
identity and any version, once the identity lookup (`get_me`) succeeds,
the normal publish path rejects with the redirect-to-remake message,
writes nothing, and makes no network call other than the initial
`get_me` request that precedes the rejection. -/
theorem publish_fork_block_redirects (env : Env)
    (tarSer : List (List String × Bool) → List Nat) (gzip : List Nat → List Nat)
    (ign : List String → Bool) (tree : List FsNode) (entries : List String)
    (m : Manifest) (dirSlug : String)
    (dn dd cf rm : Option String) (version : String)
    (cl cat nf df : Option String) (lic username : String)
    (hme : env.me = .ok username)
    (horig : m.origin.isSome = true) (hpid : m.product_id = none) :
    cmd_publish env tarSer gzip ign tree entries (some m) dirSlug dn dd cf rm
        version cl cat nf df lic
      = ⟨[ApiCall.getMe],
         PubResult.err (forkRedirectMsg (m.origin.getD "unknown") version),
         none, []⟩ := by
  unfold cmd_publish
  rw [hme]
  simp [horig, hpid]

/-- Witness for C1's amended theorem at the concrete fork manifest. -/
theorem publish_fork_block_redirects_witness :
    cmd_publish envAllOk (fun _ => []) (fun l => l) (fun _ => false) [] []
        (some forkManifest) "widget" none none none none
        "0.0.1" none none none none "MIT"
      = ⟨[ApiCall.getMe], PubResult.err (forkRedirectMsg "bob/widget" "0.0.1"),
         none, []⟩ := by
  have h := publish_fork_block_redirects envAllOk (fun _ => []) (fun l => l)
      (fun _ => false) [] [] forkManifest "widget" none none none none
      "0.0.1" none none none none "MIT" "alice" rfl rfl rfl
  simpa [forkManifest] using h

/-! ## Claim theorems: manifest persistence and best-effort tracking -/

/-- If `finishPublish` succeeds, the manifest it wrote merges the
pre-existing fork facet with the newly resolved publish facet. -/
theorem finishPublish_ok_written (env : Env) (ns : String) (ctx : PublishContext)
    (product_id : String) (size : Nat) (hash : String) (trace0 : List ApiCall)
    (hok : (finishPublish env ns ctx product_id size hash trace0).result = PubResult.ok) :
    (finishPublish env ns ctx product_id size hash trace0).written
      = some { origin := ctx.existing_manifest.bind (fun m => m.origin),
               cloned_at := ctx.existing_manifest.bind (fun m => m.cloned_at),
               file_hash := ctx.existing_manifest.bind (fun m => m.file_hash),
               slug := some ctx.slug, product_id := some product_id,
               publisher := some ns, version := ctx.version } := by
  simp only [finishPublish] at hok ⊢
  rcases hcr : env.createReleaseR with e | r
  · rw [hcr] at hok
    simp at hok
  · rw [hcr] at hok
    rcases hup : env.uploadR with e | u
    · rw [hup] at hok
      simp at hok
    · rw [hup] at hok
      rcases hcf : env.confirmR with e | rv
      · rw [hcf] at hok
        simp at hok
      · rw [hcf] at hok
        dsimp only
        split
        · split
          · rcases htr : track_remake env with e | t <;> rfl
          · rfl
        · rfl

/-- If `finishPublish` wrote a manifest, the publish already succeeded:
nothing after the write can change the result away from `ok`. -/
theorem finishPublish_written_ok (env : Env) (ns : String) (ctx : PublishContext)
    (product_id : String) (size : Nat) (hash : String) (trace0 : List ApiCall)
    (hw : (finishPublish env ns ctx product_id size hash trace0).written.isSome = true) :
    (finishPublish env ns ctx product_id size hash trace0).result = PubResult.ok := by
  simp only [finishPublish] at hw ⊢
  rcases hcr : env.createReleaseR with e | r
  · rw [hcr] at hw
    simp at hw
  · rw [hcr] at hw
    rcases hup : env.uploadR with e | u
    · rw [hup] at hw
      simp at hw
    · rw [hup] at hw
      rcases hcf : env.confirmR with e | rv
      · rw [hcf] at hw
        simp at hw
      · rw [hcf] at hw
        dsimp only
        split
        · split
          · rcases htr : track_remake env with e | t <;> rfl
          · rfl
        · rfl

/-- When the written record carries a fork origin that splits into owner
and slug and the tracking endpoint fails, `finishPublish` still succeeds
and reports exactly the tracking warning, with the tracking call traced. -/
theorem finishPublish_track_warning (env : Env) (ns : String) (ctx : PublishContext)
    (product_id : String) (size : Nat) (hash : String) (trace0 : List ApiCall)
    (o e : String)
    (ho : ctx.existing_manifest.bind (fun m => m.origin) = some o)
    (hsp : ((splitn2 o '/').length == 2) = true)
    (htr : track_remake env = .error e)
    (hok : (finishPublish env ns ctx product_id size hash trace0).result = PubResult.ok) :
    (finishPublish env ns ctx product_id size hash trace0).warnings
        = ["Warning: could not track fork: " ++ e]
    ∧ ApiCall.trackRemake ∈ (finishPublish env ns ctx product_id size hash trace0).trace := by
  simp only [finishPublish] at hok ⊢
  rcases hcr : env.createReleaseR with x | r
  · rw [hcr] at hok
    simp at hok
  · rw [hcr] at hok
    rcases hup : env.uploadR with x | u
    · rw [hup] at hok
      simp at hok
    · rw [hup] at hok
      rcases hcf : env.confirmR with x | rv
      · rw [hcf] at hok
        simp at hok
      · dsimp only
        rw [ho]
        dsimp only
        rw [hsp, htr]
        simp

/-- If the tracking call was traced at all, a manifest with a fork origin
was written first. -/
theorem finishPublish_track_only_with_origin (env : Env) (ns : String)
    (ctx : PublishContext) (product_id : String) (size : Nat) (hash : String)
    (trace0 : List ApiCall)
    (h0 : ApiCall.trackRemake ∉ trace0)
    (hm : ApiCall.trackRemake ∈ (finishPublish env ns ctx product_id size hash trace0).trace) :
    ∃ M, (finishPublish env ns ctx product_id size hash trace0).written = some M
      ∧ M.origin.isSome = true := by
  simp only [finishPublish] at hm ⊢
  rcases hcr : env.createReleaseR with x | r
  · rw [hcr] at hm
    simp only [List.mem_append] at hm
    rcases hm with h | h
    · exact absurd h h0
    · simp at h
  · rw [hcr] at hm
    rcases hup : env.uploadR with x | u
    · rw [hup] at hm
      simp only [List.mem_append] at hm
      rcases hm with h | h
      · exact absurd h h0
      · simp at h
    · rw [hup] at hm
      rcases hcf : env.confirmR with x | rv
      · rw [hcf] at hm
        simp only [List.mem_append] at hm
        rcases hm with h | h
        · exact absurd h h0
        · simp at h
      · rw [hcf] at hm
        dsimp only at hm ⊢
        split at hm
        · rename_i horigin
          rw [horigin]
          split at hm
          · rename_i hlen
            rw [if_pos hlen]
            rcases htr : track_remake env with e | t
            · exact ⟨_, rfl, by simp [horigin]⟩
            · exact ⟨_, rfl, by simp [horigin]⟩
          · rename_i hlen
            rw [if_neg hlen]
            simp only [List.mem_append] at hm
            rcases hm with h | h
            · exact absurd h h0
            · simp at h
        · rename_i horigin
          rw [horigin]
          simp only [List.mem_append] at hm
          rcases hm with h | h
          · exact absurd h h0
          · simp at h

/-- Every run of `execute_publish` is either an early error, a gate
rejection (both without a write and without tracking), or a hand-off to
`finishPublish` on the resolved product id with a trackRemake-free
accumulated trace. -/
theorem execute_publish_form (env : Env)
    (tarSer : List (List String × Bool) → List Nat) (gzip : List Nat → List Nat)
    (ign : List String → Bool) (tree : List FsNode) (entries : List String)
    (ns : String) (ctx : PublishContext) :
    (∃ e trace1, execute_publish env tarSer gzip ign tree entries ns ctx
        = ⟨trace1, PubResult.err e, none, []⟩ ∧ ApiCall.trackRemake ∉ trace1)
    ∨ (∃ fs trace1, execute_publish env tarSer gzip ign tree entries ns ctx
        = ⟨trace1, PubResult.gateFailed fs, none, []⟩ ∧ ApiCall.trackRemake ∉ trace1)
    ∨ (∃ pid trace0, ApiCall.trackRemake ∉ trace0 ∧
        execute_publish env tarSer gzip ign tree entries ns ctx
          = finishPublish env ns ctx pid
              (create_archive tarSer gzip ign tree).bytes.length
              (create_archive tarSer gzip ign tree).hash trace0) := by
  unfold execute_publish
  rcases hcat : env.categoriesR with e | categories
  · exact Or.inl ⟨e, [ApiCall.listCategories], rfl, by decide⟩
  · dsimp only
    split
    · exact Or.inr (Or.inl
        ⟨(run entries ctx.version ctx.product_desc ctx.category_slug categories).failures,
         [ApiCall.listCategories], rfl, by decide⟩)
    · rcases hmp : env.myProductsR with e | prods
      · exact Or.inl ⟨e, [ApiCall.listCategories, ApiCall.listMyProducts], rfl, by decide⟩
      · dsimp only
        split
        · rename_i ep hfind
          exact Or.inr (Or.inr ⟨ep.id,
            [ApiCall.listCategories, ApiCall.listMyProducts], by decide, rfl⟩)
        · rcases hd : ctx.product_desc with _ | d
          · exact Or.inl ⟨_, [ApiCall.listCategories, ApiCall.listMyProducts], rfl, by decide⟩
          · rcases hcp : env.createProductR with e | pid
            · exact Or.inl ⟨e,
                [ApiCall.listCategories, ApiCall.listMyProducts, ApiCall.createProduct],
                rfl, by decide⟩
            · exact Or.inr (Or.inr ⟨pid,
                [ApiCall.listCategories, ApiCall.listMyProducts, ApiCall.createProduct],
                by decide, rfl⟩)

/-- C8: after every successful publish, the persisted manifest carries
the pre-existing record's fork-provenance fields (`origin`, `cloned_at`,
`file_hash`) unchanged — absent when there was no pre-existing record —
while `slug`, `product_id`, `publisher` and `version` are set to the
newly resolved values; `version` is overwritten to the published one. -/
theorem publish_persists_merged_manifest (env : Env)
    (tarSer : List (List String × Bool) → List Nat) (gzip : List Nat → List Nat)
    (ign : List String → Bool) (tree : List FsNode) (entries : List String)
    (ns : String) (ctx : PublishContext)
    (hok : (execute_publish env tarSer gzip ign tree entries ns ctx).result = PubResult.ok) :
    ∃ pid, (execute_publish env tarSer gzip ign tree entries ns ctx).written
      = some { origin := ctx.existing_manifest.bind (fun m => m.origin),
               cloned_at := ctx.existing_manifest.bind (fun m => m.cloned_at),
               file_hash := ctx.existing_manifest.bind (fun m => m.file_hash),
               slug := some ctx.slug, product_id := some pid,
               publisher := some ns, version := ctx.version } := by
  rcases execute_publish_form env tarSer gzip ign tree entries ns ctx with
    ⟨e, t1, heq, -⟩ | ⟨fs, t1, heq, -⟩ | ⟨pid, t0, -, heq⟩
  · rw [heq] at hok
    simp at hok
  · rw [heq] at hok
    simp at hok
  · rw [heq] at hok ⊢
    exact ⟨pid, finishPublish_ok_written env ns ctx pid _ _ t0 hok⟩

/-- Witness for C8: a concrete all-success publish of a forked project
carries the fork facet forward and installs the new publish facet. -/
theorem publish_persists_merged_manifest_witness :
    ∃ pid, (execute_publish envAllOk (fun _ => []) (fun l => l) (fun _ => false) []
        ["Cargo.toml", "README.md"] "alice" publishCtxW).written
      = some { origin := some "bob/widget", cloned_at := some "2024-01-01T00:00:00Z",
               file_hash := some "deadbeef", slug := some "myslug",
               product_id := some pid, publisher := some "alice",
               version := "1.0.0" } := by
  have h := publish_persists_merged_manifest envAllOk (fun _ => []) (fun l => l)
      (fun _ => false) [] ["Cargo.toml", "README.md"] "alice" publishCtxW rfl
  simpa [publishCtxW, forkManifest] using h

/-- C9: a `track_remake` failure never fails the publish.  (a) Whenever
the manifest was written, the overall result is `ok`, whatever the
tracking outcome — the written record is not rolled back and the exit
status is success.  (b) When the written record carries an
owner-and-slug fork origin and the tracking endpoint fails, the failure
surfaces only as the warning, with the tracking call made.  (c) The
tracking call is attempted only when the written record carries a fork
origin. -/
theorem track_failure_is_nonfatal (env : Env)
    (tarSer : List (List String × Bool) → List Nat) (gzip : List Nat → List Nat)
    (ign : List String → Bool) (tree : List FsNode) (entries : List String)
    (ns : String) (ctx : PublishContext) :
    ((execute_publish env tarSer gzip ign tree entries ns ctx).written.isSome = true →
      (execute_publish env tarSer gzip ign tree entries ns ctx).result = PubResult.ok)
    ∧ (∀ M o e, (execute_publish env tarSer gzip ign tree entries ns ctx).written = some M →
        M.origin = some o → ((splitn2 o '/').length == 2) = true →
        track_remake env = .error e →
        (execute_publish env tarSer gzip ign tree entries ns ctx).warnings
            = ["Warning: could not track fork: " ++ e]
        ∧ ApiCall.trackRemake ∈ (execute_publish env tarSer gzip ign tree entries ns ctx).trace)
    ∧ (ApiCall.trackRemake ∈ (execute_publish env tarSer gzip ign tree entries ns ctx).trace →
        ∃ M, (execute_publish env tarSer gzip ign tree entries ns ctx).written = some M
          ∧ M.origin.isSome = true) := by
  rcases execute_publish_form env tarSer gzip ign tree entries ns ctx with
    ⟨e, t1, heq, h0⟩ | ⟨fs, t1, heq, h0⟩ | ⟨pid, t0, h0, heq⟩
  · rw [heq]
    refine ⟨?_, ?_, ?_⟩
    · intro hw
      simp at hw
    · intro M o e2 hwM
      simp at hwM
    · intro hm
      exact absurd hm h0
  · rw [heq]
    refine ⟨?_, ?_, ?_⟩
    · intro hw
      simp at hw
    · intro M o e2 hwM
      simp at hwM
    · intro hm
      exact absurd hm h0
  · rw [heq]
    refine ⟨?_, ?_, ?_⟩
    · intro hw
      exact finishPublish_written_ok env ns ctx pid _ _ t0 hw
    · intro M o e2 hwM horigM hsp htr
      have hok := finishPublish_written_ok env ns ctx pid
          (create_archive tarSer gzip ign tree).bytes.length
          (create_archive tarSer gzip ign tree).hash t0 (by rw [hwM]; rfl)
      have hsh := finishPublish_ok_written env ns ctx pid _ _ t0 hok
      have hMeq : M = { origin := ctx.existing_manifest.bind (fun m => m.origin),
                        cloned_at := ctx.existing_manifest.bind (fun m => m.cloned_at),
                        file_hash := ctx.existing_manifest.bind (fun m => m.file_hash),
                        slug := some ctx.slug, product_id := some pid,
                        publisher := some ns, version := ctx.version } := by
        rw [hwM] at hsh
        exact Option.some.inj hsh
      have ho : ctx.existing_manifest.bind (fun m => m.origin) = some o := by
        rw [hMeq] at horigM
        exact horigM
      exact finishPublish_track_warning env ns ctx pid _ _ t0 o e2 ho hsp htr hok
    · intro hm
      exact finishPublish_track_only_with_origin env ns ctx pid _ _ t0 h0 hm

/-- Witness for C9: the concrete forked publish with a failing tracking
endpoint still writes the record and surfaces exactly the warning, with
the tracking call traced. -/
theorem track_failure_is_nonfatal_witness :
    (execute_publish envTrackFail (fun _ => []) (fun l => l) (fun _ => false) []
        ["Cargo.toml", "README.md"] "alice" publishCtxW).warnings
      = ["Warning: could not track fork: " ++ "boom"]
    ∧ ApiCall.trackRemake ∈ (execute_publish envTrackFail (fun _ => []) (fun l => l)
        (fun _ => false) [] ["Cargo.toml", "README.md"] "alice" publishCtxW).trace := by
  have h := (track_failure_is_nonfatal envTrackFail (fun _ => []) (fun l => l)
      (fun _ => false) [] ["Cargo.toml", "README.md"] "alice" publishCtxW).2.1
  exact h { origin := some "bob/widget", cloned_at := some "2024-01-01T00:00:00Z",
            file_hash := some "deadbeef", slug := some "myslug",
            product_id := some "pid1", publisher := some "alice", version := "1.0.0" }
    "bob/widget" "boom" rfl rfl (by decide) rfl

end Baro
